import Mathlib

/-!
Verification of the hidl2aidl conversion tool (D-os/hidl snapshot).

This file gives a shallow Lean embedding of the version-merge engine
(`src/hidl2aidl/AidlNamedType.cpp`), the version-range resolver's
deduplication (`src/hidl2aidl/main.cpp`), and the translation-code
generator (`src/unnamed/part_004`, `src/unnamed/part_005`,
`src/hidl2aidl/AidlTranslate.cpp`), and proves properties of the
embedded definitions.

Modelling conventions:
* The parsed HIDL AST (an external collaborator of the tool) is the
  inductive `HType`/`HFields` below: a compound type carries its
  style, its C++ `typeName()`, its version pair, its field list and
  the names of its declared sub-types.
* The process-wide diagnostics stream `AidlHelper::notes()` is
  threaded through the state as an explicit append-only list.
* `std::set` containers are modelled by insertion-deduplicated lists
  (contents are what theorems use); where an emission order taken
  from a pointer-ordered set matters, the order is an explicit
  parameter ranging over permutations of the set's contents.
-/

namespace Hidl2Aidl

/-- The `ScalarType::Kind` enumeration from the HIDL AST (`ScalarType.h`). -/
inductive ScalarKind where
  | kindBool
  | kindInt8
  | kindUInt8
  | kindInt16
  | kindUInt16
  | kindInt32
  | kindUInt32
  | kindInt64
  | kindUInt64
  | kindFloat
  | kindDouble
deriving DecidableEq, Repr

/-- The `CompoundType::Style` enumeration (`CompoundType.h`): struct, union, safe_union. -/
inductive CompoundStyle where
  | styleStruct
  | styleUnion
  | styleSafeUnion
deriving DecidableEq, Repr

mutual

/-- A resolved HIDL type node, as the hidl2aidl passes observe it through
the `Type` accessors (`isScalar`, `isEnum`, `isString`, `isArray`,
`isVector`, `isNamedType`, `typeName`, `resolveToScalarType`).
A compound node carries its `CompoundType::style()`, its `typeName()`,
its version pair (`fqName().getVersion()` when `fqName().hasVersion()`),
its fields in declaration order and the names of its declared sub-types. -/
inductive HType : Type where
  | scalar (kind : ScalarKind)
  | string
  | enumType (name : String) (storageKind : ScalarKind)
  | namedOther (name : String)
  | array (element : HType)
  | vec (element : HType)
  | compound (style : CompoundStyle) (typeName : String)
      (version : Option (Nat × Nat)) (fields : HFields) (subTypes : List String)
deriving DecidableEq

/-- The declaration-ordered field list of a compound node; each entry is a
`NamedReference<Type>`: a field name plus the referenced type. -/
inductive HFields : Type where
  | nil
  | cons (name : String) (ty : HType) (rest : HFields)
deriving DecidableEq

end

/-- The `Type::typeName()` accessor: the display name the merge engine compares to detect
the embedding convention (a field whose type is the previous minor version of
the enclosing compound has the same `typeName()` as the enclosing compound). -/
def typeNameOf : HType → String
  | .scalar .kindBool => "bool"
  | .scalar .kindInt8 => "int8_t"
  | .scalar .kindUInt8 => "uint8_t"
  | .scalar .kindInt16 => "int16_t"
  | .scalar .kindUInt16 => "uint16_t"
  | .scalar .kindInt32 => "int32_t"
  | .scalar .kindUInt32 => "uint32_t"
  | .scalar .kindInt64 => "int64_t"
  | .scalar .kindUInt64 => "uint64_t"
  | .scalar .kindFloat => "float"
  | .scalar .kindDouble => "double"
  | .string => "string"
  | .enumType n _ => n
  | .namedOther n => n
  | .array _ => "array"
  | .vec _ => "vec"
  | .compound _ tn _ _ _ => tn

/-- The `Type::isNamedType()` accessor: true for enums, compound types and other named
types (typedefs, imported named types). -/
def HType.isNamedType : HType → Bool
  | .enumType _ _ => true
  | .namedOther _ => true
  | .compound _ _ _ _ _ => true
  | _ => false

/-- The `Type::isEnum()` accessor. -/
def HType.isEnum : HType → Bool
  | .enumType _ _ => true
  | _ => false

/-- The `Type::isScalar()` accessor. -/
def HType.isScalar : HType → Bool
  | .scalar _ => true
  | _ => false

/-- The `Type::isString()` accessor. -/
def HType.isString : HType → Bool
  | .string => true
  | _ => false

/-- The `Type::isArray()` accessor. -/
def HType.isArray : HType → Bool
  | .array _ => true
  | _ => false

/-- The `Type::isVector()` accessor. -/
def HType.isVector : HType → Bool
  | .vec _ => true
  | _ => false

/-- The `Type::resolveToScalarType()` accessor: a scalar resolves to itself, an enum to
its storage scalar; everything else does not resolve. -/
def resolveToScalarType : HType → Option ScalarKind
  | .scalar k => some k
  | .enumType _ s => some s
  | _ => none

/-- Convert the constructor-shaped field list into a plain list. -/
def HFields.toList : HFields → List (String × HType)
  | .nil => []
  | .cons n t rest => (n, t) :: rest.toList

/-! ## Version Merge Engine (src/hidl2aidl/AidlNamedType.cpp, lines 26-114) -/

/-- Structure `FieldWithVersion` as defined locally in `src/hidl2aidl/AidlNamedType.cpp`
(lines 26-29): the field reference plus the version pair of the compound
node that contributed it. -/
structure FieldWithVersion0 where
  fieldName : String
  fieldType : HType
  version : Nat × Nat

/-- One conflict record written to the diagnostics stream
(`AidlHelper::notes()`) by `processCompoundType` (lines 88-107): the
conflicting field name, the name of the type being merged, and the
type name and version pair of both the kept and the discarded field. -/
structure ConflictNote where
  fieldName : String
  inTypeName : String
  keptTypeName : String
  keptVersion : Nat × Nat
  discardedTypeName : String
  discardedVersion : Nat × Nat
deriving DecidableEq, Repr

/-- The merge state: `ProcessedCompoundType` (fields + sub-type set) of
`src/hidl2aidl/AidlNamedType.cpp` lines 31-34, together with the notes
appended to the process-wide `AidlHelper::notes()` stream. -/
structure MergeState where
  fields : List FieldWithVersion0
  subTypes : List String
  notes : List ConflictNote

def emptyMergeState : MergeState := ⟨[], [], []⟩

/-- Semantics of `processedType->subTypes.insert(subType)`: `std::set` insertion keeps
one copy of each element. -/
def insertSubType (s : String) (st : MergeState) : MergeState :=
  if s ∈ st.subTypes then st else { st with subTypes := st.subTypes ++ [s] }

/-- The loop `for (const NamedType* subType : compoundType.getSubTypes())`
(lines 71-73). -/
def insertSubTypes (subs : List String) (st : MergeState) : MergeState :=
  subs.foldl (fun acc s => insertSubType s acc) st

/-- The version comparison of `processCompoundType` lines 92-93:
`version.first > it->version.first || (version.first == it->version.first &&
version.second > it->version.second)`. -/
def versionGt (a b : Nat × Nat) : Bool :=
  a.1 > b.1 || (a.1 == b.1 && a.2 > b.2)

/-- The duplicate-name handling of the field loop in `processCompoundType`
(`src/hidl2aidl/AidlNamedType.cpp` lines 81-111): `std::find_if` locates the
first already-processed field with the same name; on a conflict the entry is
updated in place when the incoming version pair is numerically higher
(lines 92-101) and left as it is otherwise, and in both cases a note naming
the kept and the discarded contribution is written; with no match the field
is appended (line 110). The scan-and-update is rendered as one recursive
pass over the processed field list; the second component is the note (if
any) appended to `AidlHelper::notes()`. -/
def resolveFieldConflict (tn : String) (ver : Nat × Nat) (fn : String)
    (ft : HType) : List FieldWithVersion0 →
    List FieldWithVersion0 × Option ConflictNote
  | [] => ([⟨fn, ft, ver⟩], none)
  | e :: rest =>
    if e.fieldName == fn then
      if versionGt ver e.version then
        (⟨fn, ft, ver⟩ :: rest,
          some ⟨fn, tn, typeNameOf ft, ver, typeNameOf e.fieldType, e.version⟩)
      else
        (e :: rest,
          some ⟨fn, tn, typeNameOf e.fieldType, e.version, typeNameOf ft, ver⟩)
    else
      let r := resolveFieldConflict tn ver fn ft rest
      (e :: r.1, r.2)

/-- The `else` branch of the field loop (lines 81-111) acting on the whole
merge state: resolve the possible name conflict in the field vector and
append the resulting note, if any, to the diagnostics stream. -/
def processField (tn : String) (ver : Nat × Nat) (fn : String) (ft : HType)
    (st : MergeState) : MergeState :=
  let r := resolveFieldConflict tn ver fn ft st.fields
  { st with fields := r.1, notes := st.notes ++ r.2.toList }

mutual

/-- Function `processCompoundType` from `src/hidl2aidl/AidlNamedType.cpp` lines 69-114:
gather the node's sub-types, then walk its fields; a field whose referenced
type has the enclosing type's own `typeName()` is the embedded previous minor
version and is recursed into; every other field goes through duplicate-name
resolution. Non-compound arguments leave the state unchanged. -/
def processCompoundType (t : HType) (st : MergeState) : MergeState :=
  match t with
  | .compound _ tn ver fields subs =>
    processCompoundFields tn (ver.getD (0, 0)) fields (insertSubTypes subs st)
  | _ => st

/-- The field loop of `processCompoundType` (lines 77-113). -/
def processCompoundFields (tn : String) (ver : Nat × Nat) (fs : HFields)
    (st : MergeState) : MergeState :=
  match fs with
  | .nil => st
  | .cons fn ft rest =>
    let st' := if typeNameOf ft == tn
      then processCompoundType ft st
      else processField tn ver fn ft st
    processCompoundFields tn ver rest st'

end

/-! ## Merge engine with access paths (AidlHelper.h lines 37-48, 89-91)

`src/hidl2aidl/AidlHelper.h` declares the newer merge interface: a
`FieldWithVersion` carrying a `fullName` access path and
`AidlHelper::processCompoundType(compoundType, processedType,
fieldNamePfx)`, and the translate emitters in `src/unnamed/part_004`,
`src/unnamed/part_005` and `src/hidl2aidl/AidlTranslate.cpp` read
`field.fullName`.  The source file defining this overload is not part of
the snapshot (`src/hidl2aidl/AidlNamedType.cpp` holds the older revision
without the path), so the path handling below is modelled from the spec. -/

/-- Structure `FieldWithVersion` from `src/hidl2aidl/AidlHelper.h` lines 37-42: the
field reference, the dotted access path built from the names of the
traversed embedding fields, and the origin version pair. -/
structure FieldWithVersion where
  fieldName : String
  fullName : String
  fieldType : HType
  version : Nat × Nat

/-- Structure `ProcessedCompoundType` from `src/hidl2aidl/AidlHelper.h` lines 44-48
(fields + sub-type set), together with the notes appended to
`AidlHelper::notes()`. -/
structure ProcessedCompoundType where
  fields : List FieldWithVersion
  subTypes : List String
  notes : List ConflictNote

def emptyProcessed : ProcessedCompoundType := ⟨[], [], []⟩

def insertSubTypeFull (s : String) (st : ProcessedCompoundType) :
    ProcessedCompoundType :=
  if s ∈ st.subTypes then st else { st with subTypes := st.subTypes ++ [s] }

def insertSubTypesFull (subs : List String) (st : ProcessedCompoundType) :
    ProcessedCompoundType :=
  subs.foldl (fun acc s => insertSubTypeFull s acc) st

/-- Modelled from the spec: duplicate-name resolution for the access-path
carrying merge declared in `AidlHelper.h` (the defining source file is
absent from the snapshot).  Identical to `resolveFieldConflict` except that
a freshly contributed or winning field also records its dotted access path
`pfx ++ fn` (spec section 4.2: fields discovered through an embedded older
version are prefixed with the nested field's name). -/
def resolveFieldConflictFull (tn : String) (ver : Nat × Nat) (pfx fn : String)
    (ft : HType) : List FieldWithVersion →
    List FieldWithVersion × Option ConflictNote
  | [] => ([⟨fn, pfx ++ fn, ft, ver⟩], none)
  | e :: rest =>
    if e.fieldName == fn then
      if versionGt ver e.version then
        (⟨fn, pfx ++ fn, ft, ver⟩ :: rest,
          some ⟨fn, tn, typeNameOf ft, ver, typeNameOf e.fieldType, e.version⟩)
      else
        (e :: rest,
          some ⟨fn, tn, typeNameOf e.fieldType, e.version, typeNameOf ft, ver⟩)
    else
      let r := resolveFieldConflictFull tn ver pfx fn ft rest
      (e :: r.1, r.2)

def processFieldFull (tn : String) (ver : Nat × Nat) (pfx fn : String)
    (ft : HType) (st : ProcessedCompoundType) : ProcessedCompoundType :=
  let r := resolveFieldConflictFull tn ver pfx fn ft st.fields
  { st with fields := r.1, notes := st.notes ++ r.2.toList }

mutual

/-- Modelled from the spec: `AidlHelper::processCompoundType(compoundType,
processedType, fieldNamePfx)` declared at `AidlHelper.h` lines 89-91, whose
defining source file is absent from the snapshot.  Same traversal as
`processCompoundType` above; recursion into an embedded older minor version
extends the access-path with the embedding field's name followed by a dot
(spec section 4.2). -/
def processCompoundTypeFull (t : HType) (pfx : String)
    (st : ProcessedCompoundType) : ProcessedCompoundType :=
  match t with
  | .compound _ tn ver fields subs =>
    processCompoundFieldsFull tn (ver.getD (0, 0)) pfx fields
      (insertSubTypesFull subs st)
  | _ => st

/-- The field loop of the access-path carrying merge. -/
def processCompoundFieldsFull (tn : String) (ver : Nat × Nat) (pfx : String)
    (fs : HFields) (st : ProcessedCompoundType) : ProcessedCompoundType :=
  match fs with
  | .nil => st
  | .cons fn ft rest =>
    let st' := if typeNameOf ft == tn
      then processCompoundTypeFull ft (pfx ++ fn ++ ".") st
      else processFieldFull tn ver pfx fn ft st
    processCompoundFieldsFull tn ver pfx rest st'

end

/-! ## Translation Code Generator: scalar range checks
(src/unnamed/part_004 lines 140-173; same table in
src/hidl2aidl/AidlTranslate.cpp lines 72-93 and src/unnamed/part_005
lines 100-126) -/

/-- Enumeration `AidlBackend` (`AidlHelper.h`): the output-code backends. -/
inductive AidlBackend where
  | ndk
  | cpp
  | java
deriving DecidableEq, Repr

/-- The `kSignedMaxSize` map of `h2aScalarChecks`
(`src/unnamed/part_004` lines 142-146): legacy scalar kinds that need a
guard, mapped to `std::numeric_limits<int8_t>::max()`,
`std::numeric_limits<int32_t>::max()` (twice) and
`std::numeric_limits<int64_t>::max()` respectively. -/
def kSignedMaxSize : ScalarKind → Option Nat
  | .kindUInt8 => some 127
  | .kindInt16 => some 2147483647
  | .kindUInt32 => some 2147483647
  | .kindUInt64 => some 9223372036854775807
  | _ => none

/-- The runtime value of the guard condition emitted by `h2aScalarChecks`
(`src/unnamed/part_004` lines 149-160), evaluated at the mathematical value
`v` of the legacy field: for `KIND_INT16` the emitted test is `in < 0`
(AIDL `char` is unsigned 16-bit); for the other mapped kinds it is
`in > max || in < 0` (the `in < 0` disjunct is never true for the unsigned
legacy operand under C++ comparison semantics).  `true` means the emitted
code takes the failure path (`return false`, or `throw` on the managed
backend). -/
def h2aCheckFails (k : ScalarKind) (v : Int) : Bool :=
  match kSignedMaxSize k with
  | some m =>
    if k = .kindInt16 then decide (v < 0)
    else decide (v > (m : Int)) || decide (v < 0)
  | none => false

/-- The enclosing guard of `h2aScalarChecks` (`src/unnamed/part_004`
lines 147-150): the check is emitted only when the field's type resolves to
a scalar and is not an enum. -/
def h2aScalarChecksFails (t : HType) (v : Int) : Bool :=
  match resolveToScalarType t with
  | some k => if t.isEnum then false else h2aCheckFails k v
  | none => false

/-- Two's-complement semantics of the `static_cast` through which
`wrapStaticCast` (`src/unnamed/part_004` lines 183-199) copies a guarded
scalar into its AIDL slot: uint8_t to int8_t, int16_t to char16_t,
uint32_t to int32_t, uint64_t to int64_t; other scalar kinds are copied to
an equal-width slot and keep their value. -/
def staticCastTarget : ScalarKind → Int → Int
  | .kindUInt8, v => (v + 128) % 256 - 128
  | .kindInt16, v => v % 65536
  | .kindUInt32, v => (v + 2147483648) % 4294967296 - 2147483648
  | .kindUInt64, v =>
      (v + 9223372036854775808) % 18446744073709551616 - 9223372036854775808
  | _, v => v

/-- Runtime semantics of the per-scalar code emitted for a field of kind
`k`: the guard of `h2aScalarChecks`, then the `static_cast` copy. `none`
is the conversion failure (boolean-false return, or thrown error on the
managed backend). -/
def generatedScalarConvert (k : ScalarKind) (v : Int) : Option Int :=
  if h2aCheckFails k v then none else some (staticCastTarget k v)

/-- The legacy (HIDL-side) representable range of each integral scalar
kind; the floating kinds are not subject to any range claim and are given
an empty range marker. -/
def scalarMinVal : ScalarKind → Int
  | .kindBool => 0
  | .kindInt8 => -128
  | .kindUInt8 => 0
  | .kindInt16 => -32768
  | .kindUInt16 => 0
  | .kindInt32 => -2147483648
  | .kindUInt32 => 0
  | .kindInt64 => -9223372036854775808
  | .kindUInt64 => 0
  | .kindFloat => 0
  | .kindDouble => 0

def scalarMaxVal : ScalarKind → Int
  | .kindBool => 1
  | .kindInt8 => 127
  | .kindUInt8 => 255
  | .kindInt16 => 32767
  | .kindUInt16 => 65535
  | .kindInt32 => 2147483647
  | .kindUInt32 => 4294967295
  | .kindInt64 => 9223372036854775807
  | .kindUInt64 => 18446744073709551615
  | .kindFloat => 0
  | .kindDouble => 0

/-- The modern (AIDL-side) representable range of the slot each narrowed
legacy kind converts into (spec section 4.3 fixed table: uint8 to byte,
int16 to char, uint32 to int, uint64 to long); kinds with an equal-width
modern slot keep their legacy range. -/
def aidlTargetMin : ScalarKind → Int
  | .kindUInt8 => -128
  | .kindInt16 => 0
  | .kindUInt32 => -2147483648
  | .kindUInt64 => -9223372036854775808
  | k => scalarMinVal k

def aidlTargetMax : ScalarKind → Int
  | .kindUInt8 => 127
  | .kindInt16 => 65535
  | .kindUInt32 => 2147483647
  | .kindUInt64 => 9223372036854775807
  | k => scalarMaxVal k

/-! ## Translation Code Generator: runtime value semantics -/

/-- A legacy runtime value, as far as the generated converters inspect it:
an integral payload (scalars and enums) or a string. -/
inductive HValue where
  | scalarV (value : Int)
  | stringV (value : String)
deriving DecidableEq, Repr

/-- A modern tagged-union value produced by a generated safe-union
converter: the active member's tag together with its translated payload. -/
structure AUnionValue where
  activeMember : String
  value : HValue
deriving DecidableEq, Repr

/-- Runtime semantics (NDK backend) of the code emitted for one supported
simple value: `h2aScalarChecks` guard followed by the `wrapCppSource` copy
(`src/unnamed/part_004` lines 201-208, 275-303): scalars go through the
guarded `static_cast`, enum values are cast to the AIDL enum with the value
preserved (the emitted `static_assert`s pin the encodings equal), strings
are copied as-is. -/
def evalScalarEnumStringCopy (t : HType) (v : HValue) : Option HValue :=
  match v with
  | .scalarV x =>
    if h2aScalarChecksFails t x then none
    else
      match resolveToScalarType t with
      | some k => some (.scalarV (if t.isEnum then x else staticCastTarget k x))
      | none => none
  | .stringV s => if t.isString then some (.stringV s) else none

/-- Nested converters available to a generated safe-union case for fields
of named type: the environment maps a type name and a legacy payload to
the result of that type's own generated `translate` function. -/
def TranslateEnv : Type := String → HValue → Option HValue

/-- The tag under which a generated safe-union case stores its result:
the named-type branch emits `out->set<Parent::field.fullName>(...)`
(`src/unnamed/part_004` lines 128-135), the simple branch assigns the
member named by the case's field. -/
def caseTag (f : FieldWithVersion) : String :=
  if f.fieldType.isNamedType then f.fullName else f.fieldName

/-- Runtime semantics of the body emitted by `h2aFieldTranslation`
(`src/unnamed/part_004` lines 305-321) for one safe-union case, following
its dispatch order: named types first (recursive converter via the
environment; a field outside the converted set has no runtime semantics —
its emitted text is a hook splice or an `#error` marker), then containers
(not generated for safe-union cases in the claims' scope), then
scalar/enum/string via the guarded copy. -/
def evalGenFieldCase (env : TranslateEnv) (namedTypes : List String)
    (f : FieldWithVersion) (payload : HValue) : Option AUnionValue :=
  if f.fieldType.isNamedType then
    if typeNameOf f.fieldType ∈ namedTypes then
      match env (typeNameOf f.fieldType) payload with
      | some v => some ⟨f.fullName, v⟩
      | none => none
    else none
  else if f.fieldType.isArray || f.fieldType.isVector then none
  else if f.fieldType.isEnum || f.fieldType.isScalar || f.fieldType.isString then
    match evalScalarEnumStringCopy f.fieldType payload with
    | some v => some ⟨f.fieldName, v⟩
    | none => none
  else none

/-- Runtime semantics of the safe-union converter emitted by
`emitTranslateSource` (`src/unnamed/part_004` lines 434-468, and
`emitCppTranslateSource` in `src/unnamed/part_005` lines 285-304): a
`switch` on `in.getDiscriminator()` with one `case` per entry of the
merged field list, each running that field's translation, plus a
`default:` branch that fails the conversion. -/
def evalGenSafeUnion (env : TranslateEnv) (namedTypes : List String)
    (fields : List FieldWithVersion) (disc : String) (payload : HValue) :
    Option AUnionValue :=
  match fields.find? (fun f => f.fieldName == disc) with
  | some f => evalGenFieldCase env namedTypes f payload
  | none => none

/-! ## Translation Code Generator: named types and the replaced-type
registry (src/unnamed/part_004 lines 96-138; src/unnamed/part_005
lines 66-98) -/

/-- Structure `ReplacedTypeInfo` (`AidlHelper.h`): a registry entry mapping a legacy
type to a hand-authored modern type, with an optional custom per-field
translation hook (modelled by the text the hook emits). -/
structure ReplacedTypeInfo where
  aidlName : String
  translateField : Option String
deriving DecidableEq, Repr

def unknownTypeMarker (fq : String) : String :=
  "#error FIXME Unknown type: " ++ fq

def unknownTypeNote (fq : String) : String :=
  "An unknown named type was found in translation: " ++ fq

/-- The code emitted for a named-type field whose type is in the converted
set (`src/unnamed/part_004` lines 114-136), NDK/CPP rendering; block
layout and whitespace elided. -/
def translateCallText (f : FieldWithVersion) (parentStyle : CompoundStyle) :
    String :=
  if parentStyle = .styleStruct then
    "if (!translate(in." ++ f.fullName ++ ", &out->" ++ f.fieldName
      ++ ")) return false;"
  else
    "if (!translate(in." ++ f.fullName ++ "(), &" ++ f.fieldName
      ++ ")) return false; out->set<" ++ f.fullName ++ ">(" ++ f.fieldName ++ ");"

/-- Function `namedTypeTranslation` from `src/unnamed/part_004` lines 96-138: a
named-type field outside the converted set consults the replaced-type
registry — a registered entry with a hook splices the hook's output, a
registered entry without a hook emits nothing, no entry emits the
`#error` unknown-type marker and records a note; a field inside the set
emits the recursive `translate` call.  Result: the emitted code and the
notes appended to the diagnostics stream. -/
def namedTypeTranslation (namedTypes : List String)
    (replacedTypes : String → Option ReplacedTypeInfo)
    (f : FieldWithVersion) (parentStyle : CompoundStyle) :
    String × List String :=
  let fq := typeNameOf f.fieldType
  if fq ∉ namedTypes then
    match replacedTypes fq with
    | some rt =>
      match rt.translateField with
      | some hookText => (hookText, [])
      | none => ("", [])
    | none => (unknownTypeMarker fq, [unknownTypeNote fq])
  else
    (translateCallText f parentStyle, [])

/-! ## Translation Code Generator: containers
(src/unnamed/part_004 lines 210-273) -/

/-- The shape of the code emitted by `containerTranslation` for an array
or vector field: one of the two `#error` rejection markers (emitted in
place of any translation code), or the index-bounded per-element copy
loop. -/
inductive ContainerEmit where
  | errorNestedContainer (fieldName : String)
  | errorNamedElement (fieldName : String)
  | elementLoop (element : HType)

/-- The branch structure of `containerTranslation` after the element type
is extracted (`src/unnamed/part_004` lines 230-272): nested
arrays/vectors are rejected (lines 230-235), named non-enum element types
are rejected (lines 236-241), every other element type gets the
index-bounded loop that reapplies `h2aScalarChecks` per element and
copies through `wrapCppSource`. -/
def containerEmitFor (fn : String) (elem : HType) : ContainerEmit :=
  if elem.isArray || elem.isVector then .errorNestedContainer fn
  else if elem.isNamedType && !elem.isEnum then .errorNamedElement fn
  else .elementLoop elem

/-- Function `containerTranslation` (`src/unnamed/part_004` lines 210-273) for a
field: extracts the element type of the array/vector (`none` models the
`LOG(FATAL)` on a non-container argument) and emits per the branch
structure above.  The second component is the list of notes the call
appends to the diagnostics stream: the source appends none on any
branch. -/
def containerTranslation (f : FieldWithVersion) :
    Option (ContainerEmit × List String) :=
  match f.fieldType with
  | .array elem => some (containerEmitFor f.fieldName elem, [])
  | .vec elem => some (containerEmitFor f.fieldName elem, [])
  | _ => none

/-- Runtime semantics of the emitted element loop: each element goes
through the per-element `h2aScalarChecks` guard and the `wrapCppSource`
copy, in index order; a failing guard fails the whole conversion
(`return false` from inside the loop). -/
def evalElementLoop (elem : HType) : List HValue → Option (List HValue)
  | [] => some []
  | v :: rest =>
    match evalScalarEnumStringCopy elem v with
    | none => none
    | some w =>
      match evalElementLoop elem rest with
      | none => none
      | some ws => some (w :: ws)

/-! ## Version Range Resolver (src/hidl2aidl/main.cpp) -/

/-- Structure `FQName`: package, local name, major.minor package version. -/
structure FQName where
  package : String
  name : String
  major : Nat
  minor : Nat
deriving DecidableEq, Repr

/-- Function `getNewerFQName` (`src/hidl2aidl/main.cpp` lines 55-64). -/
def getNewerFQName (lhs rhs : FQName) : FQName :=
  if lhs.major > rhs.major then lhs
  else if lhs.major < rhs.major then rhs
  else if lhs.minor > rhs.minor then lhs
  else rhs

/-- The loop of `getLatestMinorVersionFQNameFromList`
(`src/hidl2aidl/main.cpp` lines 69-79), carrying the running candidate and
the `found` flag. -/
def getLatestGo (cand : FQName) (found : Bool) : List FQName → FQName
  | [] => cand
  | current :: rest =>
    if current.package = cand.package ∧ current.name = cand.name ∧
        current.major = cand.major then
      getLatestGo (if found then getNewerFQName current cand else current)
        true rest
    else
      getLatestGo cand found rest

/-- Function `getLatestMinorVersionFQNameFromList` (`src/hidl2aidl/main.cpp`
lines 67-82): the newest same-package, same-name, same-major entry of the
list, the list's entries taking priority over the provided name; the
provided name itself if no entry matches. -/
def getLatestMinorVersionFQNameFromList (fq : FQName) (l : List FQName) :
    FQName :=
  getLatestGo fq false l

/-- The target deduplication of `main` (`src/hidl2aidl/main.cpp`
lines 266-274): `std::remove_if` drops every target that is neither named
`types` nor the latest minor version of its (package, name, major) key;
equivalently, it retains exactly the `types` entries and the per-key
newest entries. -/
def dedupTargets (targets : List FQName) : List FQName :=
  targets.filter (fun fq =>
    fq.name == "types" || getLatestMinorVersionFQNameFromList fq targets == fq)

/-! ## Type Mapping & Definition Emitter
(src/hidl2aidl/AidlNamedType.cpp lines 116-170) -/

/-- Modelled from the spec: `AidlHelper::getAidlType` is declared in
`AidlHelper.h` but its defining source file is absent from the snapshot;
this is the fixed scalar table of spec section 4.3 (unsigned 8-bit to
signed byte, 16-bit to char, 32/64-bit to their fixed-width signed
equivalents, UTF-8 string to String, enums and named types by name,
containers by element). -/
def getAidlTypeStr : HType → String
  | .scalar .kindBool => "boolean"
  | .scalar .kindInt8 => "byte"
  | .scalar .kindUInt8 => "byte"
  | .scalar .kindInt16 => "char"
  | .scalar .kindUInt16 => "char"
  | .scalar .kindInt32 => "int"
  | .scalar .kindUInt32 => "int"
  | .scalar .kindInt64 => "long"
  | .scalar .kindUInt64 => "long"
  | .scalar .kindFloat => "float"
  | .scalar .kindDouble => "double"
  | .string => "String"
  | .enumType n _ => n
  | .namedOther n => n
  | .array e => getAidlTypeStr e ++ "[]"
  | .vec e => getAidlTypeStr e ++ "[]"
  | .compound _ tn _ _ _ => tn

/-- Modelled from the spec: `AidlHelper::importLocallyReferencedType` is
declared in `AidlHelper.h` but its defining source file is absent from the
snapshot; per spec section 4.3 it contributes an import for a named type
(looking through container element types). -/
def importLocallyReferencedType : HType → Option String
  | .array e => importLocallyReferencedType e
  | .vec e => importLocallyReferencedType e
  | t => if t.isNamedType then some (typeNameOf t) else none

/-- The body of the `parcelable` definition emitted by
`emitCompoundTypeAidlDefinition`: the merged field lines for a struct
(lines 154-163), or the `{}` placeholder annotated with the
cannot-convert comment and the commented-out reproduction of the legacy
definition (`emitConversionNotes`, lines 36-42) for unions and safe
unions (lines 164-168). -/
inductive ParcelableBody where
  | structFields (lines : List String)
  | emptyPlaceholder (cannotConvert : String) (hidlReproduction : String)
deriving DecidableEq, Repr

/-- The output of `emitCompoundTypeAidlDefinition` for one compound type's
own file: the sorted unique import lines (the `std::set<std::string>
imports`, iterated in string order), the type name, the body, and the
notes the enclosed merge appended to the diagnostics stream. -/
structure EmittedAidlDefinition where
  imports : List String
  name : String
  body : ParcelableBody
  notes : List ConflictNote
deriving Repr

/-- Function `emitCompoundTypeAidlDefinition` (`src/hidl2aidl/AidlNamedType.cpp`
lines 116-170): run the merge, compute the import set for merged fields
and sub-types that are not part of the newest version's own declared
lists (lines 130-144), and emit the parcelable definition.  `subOrder` is
the traversal order of the pointer-ordered `std::set` of sub-types
(lines 139-144), a permutation of the merge result's sub-type set; the
emitted import lines re-sort by string, as `std::set<std::string>` does
(lines 145-147). -/
def emitCompoundTypeAidlDefinition (style : CompoundStyle) (tn : String)
    (ver : Option (Nat × Nat)) (fs : HFields) (subs : List String)
    (subOrder : List String) : EmittedAidlDefinition :=
  let processed :=
    processCompoundType (HType.compound style tn ver fs subs) emptyMergeState
  let latestFields := fs.toList
  let fieldImports := processed.fields.filterMap (fun f =>
    if (f.fieldName, f.fieldType) ∈ latestFields then none
    else importLocallyReferencedType f.fieldType)
  let subImports := subOrder.filterMap (fun s =>
    if s ∈ subs then none else some s)
  let imports := (fieldImports ++ subImports).toFinset.sort (· ≤ ·)
  let body := if style = .styleStruct then
      ParcelableBody.structFields (processed.fields.map (fun f =>
        getAidlTypeStr f.fieldType ++ " " ++ f.fieldName))
    else
      ParcelableBody.emptyPlaceholder
        "Cannot convert unions/safe_unions since AIDL does not support them."
        ("This is the HIDL definition of " ++ tn)
  ⟨imports, tn, body, processed.notes⟩

/-- Rendering of the emitted definition to text. -/
def renderAidlDefinition (d : EmittedAidlDefinition) : String :=
  String.intercalate "\n" (d.imports.map (fun i => "import " ++ i ++ ";"))
    ++ "\nparcelable " ++ d.name ++ "\n"
    ++ (match d.body with
        | .structFields lines => String.intercalate "\n" lines
        | .emptyPlaceholder c r => "// " ++ c ++ "\n// " ++ r)

/-! ## Translation Code Generator: per-type emission
(src/unnamed/part_004 lines 399-493) -/

/-- What `emitTranslateSource` emits for one type: nothing, only a
commented-out converter signature, or a real converter function. -/
inductive TranslateEmission where
  | skipped
  | commentedSignature (typeName : String)
  | translateFunction (style : CompoundStyle) (fields : List FieldWithVersion)

/-- The per-type body of the emission loop of `emitTranslateSource`
(`src/unnamed/part_004` lines 416-487): a type with no processed merge
result is skipped (lines 417-420); an untagged union gets only a
commented-out signature — and nothing at all in the Java backend —
(lines 424-432); a safe union gets the switch-based converter
(lines 435-468); a struct gets the field-by-field converter
(lines 469-480).  The second component is the list of notes this loop
body itself appends to the diagnostics stream (per-field note emission is
modelled in `namedTypeTranslation`). -/
def emitTranslateSourceForType (backend : AidlBackend) (c : HType)
    (processed : Option ProcessedCompoundType) :
    TranslateEmission × List String :=
  match c, processed with
  | _, none => (.skipped, [])
  | .compound style _ _ _ _, some p =>
    if style = .styleUnion then
      if backend = .java then (.skipped, [])
      else (.commentedSignature (typeNameOf c), [])
    else (.translateFunction style p.fields, [])
  | _, some _ => (.skipped, [])

/-! ## Lemmas about the merge engine -/

theorem resolveFieldConflict_found (tn : String) (ver : Nat × Nat)
    (fn : String) (ft : HType) (pre post : List FieldWithVersion0)
    (e : FieldWithVersion0) (hpre : fn ∉ pre.map (·.fieldName))
    (hname : e.fieldName = fn) :
    resolveFieldConflict tn ver fn ft (pre ++ e :: post) =
      if versionGt ver e.version then
        (pre ++ ⟨fn, ft, ver⟩ :: post,
          some ⟨fn, tn, typeNameOf ft, ver, typeNameOf e.fieldType, e.version⟩)
      else
        (pre ++ e :: post,
          some ⟨fn, tn, typeNameOf e.fieldType, e.version, typeNameOf ft, ver⟩) := by
  induction pre with
  | nil =>
    simp [resolveFieldConflict, hname]
  | cons p pre ih =>
    simp only [List.map_cons, List.mem_cons, not_or] at hpre
    have hp : (p.fieldName == fn) = false :=
      beq_eq_false_iff_ne.mpr (fun hh => hpre.1 hh.symm)
    simp only [List.cons_append, resolveFieldConflict, hp, Bool.false_eq_true,
      if_false, List.append_eq]
    rw [ih hpre.2]
    split <;> rfl

theorem resolveFieldConflict_names (tn : String) (ver : Nat × Nat)
    (fn : String) (ft : HType) (l : List FieldWithVersion0) :
    (resolveFieldConflict tn ver fn ft l).1.map (·.fieldName)
      = if fn ∈ l.map (·.fieldName) then l.map (·.fieldName)
        else l.map (·.fieldName) ++ [fn] := by
  induction l with
  | nil => simp [resolveFieldConflict]
  | cons e rest ih =>
    by_cases h : e.fieldName = fn
    · subst h
      simp only [resolveFieldConflict, beq_self_eq_true, if_true]
      split <;> simp
    · have hp : (e.fieldName == fn) = false := by simp [h]
      simp only [resolveFieldConflict, hp, Bool.false_eq_true, if_false,
        List.map_cons]
      rw [ih]
      by_cases hm : fn ∈ rest.map (·.fieldName)
      · rw [if_pos hm, if_pos (List.mem_cons.mpr (Or.inr hm))]
      · rw [if_neg hm, if_neg (fun hh => by
          rcases List.mem_cons.mp hh with hh' | hh'
          · exact h hh'.symm
          · exact hm hh')]
        exact (List.cons_append _ _ _).symm

theorem processField_names_nodup (tn : String) (ver : Nat × Nat)
    (fn : String) (ft : HType) (st : MergeState)
    (h : (st.fields.map (·.fieldName)).Nodup) :
    ((processField tn ver fn ft st).fields.map (·.fieldName)).Nodup := by
  show ((resolveFieldConflict tn ver fn ft st.fields).1.map (·.fieldName)).Nodup
  rw [resolveFieldConflict_names]
  split
  · exact h
  · next hm => simp [List.nodup_append, h, hm]

theorem processField_subTypes (tn : String) (ver : Nat × Nat) (fn : String)
    (ft : HType) (st : MergeState) :
    (processField tn ver fn ft st).subTypes = st.subTypes := rfl

theorem insertSubType_fields (s : String) (st : MergeState) :
    (insertSubType s st).fields = st.fields := by
  unfold insertSubType; split <;> rfl

theorem insertSubTypes_fields (subs : List String) (st : MergeState) :
    (insertSubTypes subs st).fields = st.fields := by
  induction subs generalizing st with
  | nil => rfl
  | cons s rest ih =>
    show (insertSubTypes rest (insertSubType s st)).fields = st.fields
    rw [ih, insertSubType_fields]

theorem insertSubType_mono (s x : String) (st : MergeState)
    (hx : x ∈ st.subTypes) : x ∈ (insertSubType s st).subTypes := by
  unfold insertSubType; split
  · exact hx
  · exact List.mem_append_left _ hx

theorem insertSubTypes_mono (subs : List String) (st : MergeState) (x : String)
    (hx : x ∈ st.subTypes) : x ∈ (insertSubTypes subs st).subTypes := by
  induction subs generalizing st with
  | nil => exact hx
  | cons s rest ih =>
    exact ih (insertSubType s st) (insertSubType_mono s x st hx)

theorem insertSubType_mem (s : String) (st : MergeState) :
    s ∈ (insertSubType s st).subTypes := by
  unfold insertSubType; split
  · assumption
  · exact List.mem_append_right _ (List.mem_singleton.mpr rfl)

theorem insertSubTypes_mem (subs : List String) (st : MergeState) (s : String)
    (hs : s ∈ subs) : s ∈ (insertSubTypes subs st).subTypes := by
  induction subs generalizing st with
  | nil => cases hs
  | cons a rest ih =>
    rcases List.mem_cons.mp hs with rfl | hs'
    · exact insertSubTypes_mono rest (insertSubType s st) s
        (insertSubType_mem s st)
    · exact ih (insertSubType a st) hs'

mutual

theorem processCompoundType_names_nodup (t : HType) (st : MergeState)
    (h : (st.fields.map (·.fieldName)).Nodup) :
    ((processCompoundType t st).fields.map (·.fieldName)).Nodup := by
  match t with
  | .compound style tn ver fields subs =>
    have hsub : ((insertSubTypes subs st).fields.map (·.fieldName)).Nodup := by
      rw [insertSubTypes_fields]; exact h
    exact processCompoundFields_names_nodup tn (ver.getD (0, 0)) fields
      (insertSubTypes subs st) hsub
  | .scalar _ => exact h
  | .string => exact h
  | .enumType _ _ => exact h
  | .namedOther _ => exact h
  | .array _ => exact h
  | .vec _ => exact h

theorem processCompoundFields_names_nodup (tn : String) (ver : Nat × Nat)
    (fs : HFields) (st : MergeState)
    (h : (st.fields.map (·.fieldName)).Nodup) :
    ((processCompoundFields tn ver fs st).fields.map (·.fieldName)).Nodup := by
  match fs with
  | .nil => exact h
  | .cons fn ft rest =>
    show ((processCompoundFields tn ver rest
      (if typeNameOf ft == tn then processCompoundType ft st
       else processField tn ver fn ft st)).fields.map (·.fieldName)).Nodup
    split
    · exact processCompoundFields_names_nodup tn ver rest _
        (processCompoundType_names_nodup ft st h)
    · exact processCompoundFields_names_nodup tn ver rest _
        (processField_names_nodup tn ver fn ft st h)

end

mutual

theorem processCompoundType_subTypes_mono (t : HType) (st : MergeState)
    (x : String) (hx : x ∈ st.subTypes) :
    x ∈ (processCompoundType t st).subTypes := by
  match t with
  | .compound style tn ver fields subs =>
    exact processCompoundFields_subTypes_mono tn (ver.getD (0, 0)) fields
      (insertSubTypes subs st) x (insertSubTypes_mono subs st x hx)
  | .scalar _ => exact hx
  | .string => exact hx
  | .enumType _ _ => exact hx
  | .namedOther _ => exact hx
  | .array _ => exact hx
  | .vec _ => exact hx

theorem processCompoundFields_subTypes_mono (tn : String) (ver : Nat × Nat)
    (fs : HFields) (st : MergeState) (x : String) (hx : x ∈ st.subTypes) :
    x ∈ (processCompoundFields tn ver fs st).subTypes := by
  match fs with
  | .nil => exact hx
  | .cons fn ft rest =>
    show x ∈ (processCompoundFields tn ver rest
      (if typeNameOf ft == tn then processCompoundType ft st
       else processField tn ver fn ft st)).subTypes
    split
    · exact processCompoundFields_subTypes_mono tn ver rest _ x
        (processCompoundType_subTypes_mono ft st x hx)
    · exact processCompoundFields_subTypes_mono tn ver rest _ x
        (by rw [processField_subTypes]; exact hx)

end

/-! ## Claim theorems for the merge engine -/

/-- C1: whenever a field processed by `processCompoundType` has the same
final name as an already merged field contributed by a different version,
the merged field list keeps, in place, exactly the field whose
(major, minor) version pair is numerically higher (lexicographically,
major first) — regardless of which of the two contributions was
encountered first, since both orders are the two cases below — and a
conflict record naming both contributing versions is appended to the
diagnostics notes stream. -/
theorem processField_conflict_keeps_higher_version
    (tn : String) (ver : Nat × Nat) (fn : String) (ft : HType)
    (pre post : List FieldWithVersion0) (e : FieldWithVersion0)
    (subs : List String) (notes : List ConflictNote)
    (hpre : fn ∉ pre.map (·.fieldName)) (hname : e.fieldName = fn)
    (hne : ver ≠ e.version) :
    (versionGt ver e.version = true ∨ versionGt e.version ver = true) ∧
    (versionGt ver e.version = true →
      processField tn ver fn ft ⟨pre ++ e :: post, subs, notes⟩
        = ⟨pre ++ ⟨fn, ft, ver⟩ :: post, subs, notes ++
            [⟨fn, tn, typeNameOf ft, ver, typeNameOf e.fieldType, e.version⟩]⟩) ∧
    (versionGt e.version ver = true →
      processField tn ver fn ft ⟨pre ++ e :: post, subs, notes⟩
        = ⟨pre ++ e :: post, subs, notes ++
            [⟨fn, tn, typeNameOf e.fieldType, e.version, typeNameOf ft,
              ver⟩]⟩) := by
  have hres := resolveFieldConflict_found tn ver fn ft pre post e hpre hname
  refine ⟨?_, ?_, ?_⟩
  · have hne' : ver.1 ≠ e.version.1 ∨ ver.2 ≠ e.version.2 := by
      by_contra hc
      push_neg at hc
      exact hne (Prod.ext_iff.mpr ⟨hc.1, hc.2⟩)
    simp only [versionGt, Bool.or_eq_true, Bool.and_eq_true, decide_eq_true_eq,
      beq_iff_eq]
    omega
  · intro hgt
    simp only [processField, hres, hgt, if_true]
    rfl
  · intro hgt
    have hngt : versionGt ver e.version = false := by
      by_contra hc
      have h : versionGt ver e.version = true := by
        revert hc; cases versionGt ver e.version <;> simp
      simp only [versionGt, Bool.or_eq_true, Bool.and_eq_true,
        decide_eq_true_eq, beq_iff_eq] at h hgt
      omega
    simp only [processField, hres, hngt, Bool.false_eq_true, if_false]
    rfl

/-- Witness for C1: the field `x` is contributed by versions 1.0 and 1.1 in
both possible encounter orders; in each case the 1.1 definition is kept and
the note names both versions. -/
theorem processField_conflict_keeps_higher_version_witness :
    processField "struct Foo" (1, 1) "x" HType.string
        ⟨[⟨"x", HType.scalar .kindUInt32, (1, 0)⟩], [], []⟩
      = ⟨[⟨"x", HType.string, (1, 1)⟩], [],
         [⟨"x", "struct Foo", "string", (1, 1), "uint32_t", (1, 0)⟩]⟩ ∧
    processField "struct Foo" (1, 0) "x" HType.string
        ⟨[⟨"x", HType.scalar .kindUInt32, (1, 1)⟩], [], []⟩
      = ⟨[⟨"x", HType.scalar .kindUInt32, (1, 1)⟩], [],
         [⟨"x", "struct Foo", "uint32_t", (1, 1), "string", (1, 0)⟩]⟩ := by
  constructor
  · exact (processField_conflict_keeps_higher_version "struct Foo" (1, 1) "x"
      .string [] [] ⟨"x", .scalar .kindUInt32, (1, 0)⟩ [] [] (by decide) rfl
      (by decide)).2.1 (by decide)
  · exact (processField_conflict_keeps_higher_version "struct Foo" (1, 0) "x"
      .string [] [] ⟨"x", .scalar .kindUInt32, (1, 1)⟩ [] [] (by decide) rfl
      (by decide)).2.2 (by decide)

/-- C2: merging a compound type whose newest version embeds the previous
minor version as a field recurses into the embedded compound, and fields
pulled in from the older version get an access path prefixed with the
embedding field's name: for `Foo@1.0` with field `a:uint32` and `Foo@1.1`
adding `b:string` and embedding `Foo@1.0` as `v1_0`, the merge result's
fields are `[a, b]`, `a` carrying access path `v1_0.a` and origin version
1.0.  (The access-path handling is modelled from the spec, see
`processCompoundTypeFull`.) -/
theorem processCompoundTypeFull_scenarioA :
    (processCompoundTypeFull
        (HType.compound .styleStruct "struct Foo" (some (1, 1))
          (.cons "v1_0"
            (HType.compound .styleStruct "struct Foo" (some (1, 0))
              (.cons "a" (.scalar .kindUInt32) .nil) [])
            (.cons "b" .string .nil)) [])
        "" emptyProcessed).fields.map (fun f =>
          (f.fieldName, f.fullName, f.version))
      = [("a", "v1_0.a", (1, 0)), ("b", "b", (1, 1))] := by
  rfl

/-- C3: a `ProcessedCompoundType` produced by `processCompoundType` from
any compound node at any recursion depth (any starting state whose field
names are distinct, covering the fresh state of
`emitCompoundTypeAidlDefinition` as well as every recursive call) has no
two field entries with the same field name, and its sub-type set contains
every sub-type declared by the node itself. -/
theorem processCompoundType_invariants (style : CompoundStyle) (tn : String)
    (ver : Option (Nat × Nat)) (fs : HFields) (subs : List String)
    (st : MergeState) (h : (st.fields.map (·.fieldName)).Nodup) :
    ((processCompoundType (.compound style tn ver fs subs) st).fields.map
        (·.fieldName)).Nodup ∧
    (∀ s ∈ subs,
      s ∈ (processCompoundType (.compound style tn ver fs subs) st).subTypes) := by
  constructor
  · exact processCompoundType_names_nodup _ _ h
  · intro s hs
    show s ∈ (processCompoundFields tn (ver.getD (0, 0)) fs
      (insertSubTypes subs st)).subTypes
    exact processCompoundFields_subTypes_mono tn (ver.getD (0, 0)) fs
      (insertSubTypes subs st) s (insertSubTypes_mem subs st s hs)

/-- Witness for C3: merging a two-version chain of `struct Foo` (whose 1.1
declares sub-type `Inner` and embeds 1.0) from the fresh state yields
distinct field names, and `Inner` is in the sub-type set. -/
theorem processCompoundType_invariants_witness :
    (((processCompoundType
        (.compound .styleStruct "struct Foo" (some (1, 1))
          (.cons "v1_0"
            (HType.compound .styleStruct "struct Foo" (some (1, 0))
              (.cons "a" (.scalar .kindUInt32) .nil) [])
            (.cons "b" .string .nil)) ["Inner"])
        emptyMergeState).fields.map (·.fieldName)).Nodup) ∧
    ("Inner" ∈ (processCompoundType
        (.compound .styleStruct "struct Foo" (some (1, 1))
          (.cons "v1_0"
            (HType.compound .styleStruct "struct Foo" (some (1, 0))
              (.cons "a" (.scalar .kindUInt32) .nil) [])
            (.cons "b" .string .nil)) ["Inner"])
        emptyMergeState).subTypes) := by
  have h := processCompoundType_invariants .styleStruct "struct Foo"
    (some (1, 1))
    (.cons "v1_0"
      (HType.compound .styleStruct "struct Foo" (some (1, 0))
        (.cons "a" (.scalar .kindUInt32) .nil) [])
      (.cons "b" .string .nil)) ["Inner"] emptyMergeState (by decide)
  exact ⟨h.1, h.2 "Inner" (by decide)⟩

/-! ## Claim theorems for the scalar range checks -/

/-- C4: for each documented narrowing pair (uint8 to byte, int16 to char,
uint32 to int, uint64 to long), the generated conversion code copies the
exact numeric value when the legacy-representable input is inside the
modern target's range, and fails (boolean-false return, or thrown error
per backend) exactly when it is outside that range — never producing a
truncated or wrapped value. -/
theorem h2aScalarChecks_range_exact (k : ScalarKind) (v : Int)
    (hk : k = .kindUInt8 ∨ k = .kindInt16 ∨ k = .kindUInt32 ∨ k = .kindUInt64)
    (hsrc : scalarMinVal k ≤ v ∧ v ≤ scalarMaxVal k) :
    (aidlTargetMin k ≤ v ∧ v ≤ aidlTargetMax k →
      generatedScalarConvert k v = some v) ∧
    ((v < aidlTargetMin k ∨ aidlTargetMax k < v) →
      generatedScalarConvert k v = none) := by
  obtain ⟨h1, h2⟩ := hsrc
  rcases hk with rfl | rfl | rfl | rfl <;>
    (simp only [scalarMinVal, scalarMaxVal] at h1 h2
     constructor
     · intro ht
       simp only [aidlTargetMin, aidlTargetMax] at ht
       simp only [generatedScalarConvert]
       rw [if_neg (by simp [h2aCheckFails, kSignedMaxSize]; omega)]
       simp only [staticCastTarget, Option.some.injEq]
       omega
     · intro ht
       simp only [aidlTargetMin, aidlTargetMax] at ht
       simp only [generatedScalarConvert]
       rw [if_pos (by simp [h2aCheckFails, kSignedMaxSize]; omega)])

/-- Witness for C4 (Scenario B): the legacy uint32 value 0x70000000
converts to exactly 0x70000000; the value 0xf0000000 fails. -/
theorem h2aScalarChecks_range_exact_witness :
    generatedScalarConvert .kindUInt32 1879048192 = some 1879048192 ∧
    generatedScalarConvert .kindUInt32 4026531840 = none := by
  constructor
  · exact (h2aScalarChecks_range_exact .kindUInt32 1879048192
      (Or.inr (Or.inr (Or.inl rfl))) (by decide)).1 (by decide)
  · exact (h2aScalarChecks_range_exact .kindUInt32 4026531840
      (Or.inr (Or.inr (Or.inl rfl))) (by decide)).2 (by decide)

/-! ## Claim theorems for the safe-union converter -/

theorem find?_fieldName_nodup (fields : List FieldWithVersion) (disc : String)
    (f : FieldWithVersion) (hnd : (fields.map (·.fieldName)).Nodup)
    (hf : f ∈ fields) (hfd : f.fieldName = disc) :
    fields.find? (fun g => g.fieldName == disc) = some f := by
  induction fields with
  | nil => cases hf
  | cons g rest ih =>
    simp only [List.map_cons, List.nodup_cons] at hnd
    rcases List.mem_cons.mp hf with rfl | hf'
    · exact List.find?_cons_of_pos _ (by simp [hfd])
    · have hg : (g.fieldName == disc) = false := by
        simp only [beq_eq_false_iff_ne]
        intro he
        exact hnd.1 (List.mem_map.mpr ⟨f, hf', hfd.trans he.symm⟩)
      rw [List.find?_cons_of_neg _ (by simp [hg])]
      exact ih hnd.2 hf'

/-- C5: the converter emitted for a tagged (safe) union is a dispatch on
the legacy discriminator with exactly one case per retained merged field —
a discriminator selecting a retained field runs exactly that field's own
translation — whose result, when it succeeds, sets the modern tagged
union's member corresponding to that case; any discriminator matching no
retained field takes the default branch and fails the conversion. -/
theorem emitTranslateSource_safeUnion_dispatch
    (env : TranslateEnv) (namedTypes : List String)
    (fields : List FieldWithVersion) (disc : String) (payload : HValue)
    (hnd : (fields.map (·.fieldName)).Nodup) :
    (disc ∉ fields.map (·.fieldName) →
      evalGenSafeUnion env namedTypes fields disc payload = none) ∧
    (∀ f ∈ fields, f.fieldName = disc →
      evalGenSafeUnion env namedTypes fields disc payload
        = evalGenFieldCase env namedTypes f payload) ∧
    (∀ f ∈ fields, ∀ r, evalGenFieldCase env namedTypes f payload = some r →
      r.activeMember = caseTag f) := by
  refine ⟨?_, ?_, ?_⟩
  · intro hmem
    unfold evalGenSafeUnion
    rw [List.find?_eq_none.mpr (fun g hg => by
      simp only [beq_iff_eq]
      exact fun he => hmem (List.mem_map.mpr ⟨g, hg, he⟩))]
  · intro f hf hfd
    unfold evalGenSafeUnion
    rw [find?_fieldName_nodup fields disc f hnd hf hfd]
  · intro f hf r hr
    unfold evalGenFieldCase at hr
    unfold caseTag
    split at hr
    · next hnamed =>
      rw [if_pos hnamed]
      split at hr
      · cases henv : env (typeNameOf f.fieldType) payload with
        | some v => rw [henv] at hr; cases hr; rfl
        | none => rw [henv] at hr; cases hr
      · cases hr
    · next hnamed =>
      rw [if_neg hnamed]
      split at hr
      · cases hr
      · split at hr
        · cases hcopy : evalScalarEnumStringCopy f.fieldType payload with
          | some v => rw [hcopy] at hr; cases hr; rfl
          | none => rw [hcopy] at hr; cases hr
        · cases hr

/-- Witness for C5 (Scenario C): a legacy safe union whose discriminator
selects the string member `d` holding `"Hello world!"` converts to the
modern tagged union with active member `d` and the same string. -/
theorem emitTranslateSource_safeUnion_dispatch_witness :
    evalGenSafeUnion (fun _ _ => none) []
        [⟨"d", "d", HType.string, (1, 2)⟩] "d" (.stringV "Hello world!")
      = some ⟨"d", .stringV "Hello world!"⟩ := by
  have h := (emitTranslateSource_safeUnion_dispatch (fun _ _ => none) []
    [⟨"d", "d", HType.string, (1, 2)⟩] "d" (.stringV "Hello world!")
    (by decide)).2.1 ⟨"d", "d", HType.string, (1, 2)⟩
    (List.mem_singleton.mpr rfl) rfl
  rw [h]
  rfl

/-! ## Claim theorems for named-type fields and the replaced-type
registry -/

/-- C6 counterexample: for a named-type field whose type `X` is not in the
converted set but has a registry entry WITHOUT a custom translation hook,
`namedTypeTranslation` emits nothing (no marker, no hook output) and
records no note — the field is silently dropped from the generated
converter, contradicting the claim's "in no case is a field omitted ...
with no marker, no hook output, and no note". -/
theorem namedTypeTranslation_silent_skip_counterexample :
    namedTypeTranslation []
        (fun fq => if fq = "X" then some ⟨"RX", none⟩ else none)
        ⟨"x", "x", HType.namedOther "X", (1, 0)⟩ .styleStruct
      = ("", []) := by
  rfl

/-- C6 (amended): for a named-type field whose referenced type is not in
the converted set, the generator consults the replaced-type registry: a
registered entry with a custom hook splices the hook's emitted code; a
registered entry WITHOUT a hook emits nothing and records nothing (the
field is silently skipped); only with no registry entry at all does it
emit the explicit unknown-type error marker and record a diagnostics
note. -/
theorem namedTypeTranslation_registry_behavior
    (namedTypes : List String) (reg : String → Option ReplacedTypeInfo)
    (f : FieldWithVersion) (pstyle : CompoundStyle)
    (hout : typeNameOf f.fieldType ∉ namedTypes) :
    (∀ rt hook, reg (typeNameOf f.fieldType) = some rt →
      rt.translateField = some hook →
      namedTypeTranslation namedTypes reg f pstyle = (hook, [])) ∧
    (∀ rt, reg (typeNameOf f.fieldType) = some rt →
      rt.translateField = none →
      namedTypeTranslation namedTypes reg f pstyle = ("", [])) ∧
    (reg (typeNameOf f.fieldType) = none →
      namedTypeTranslation namedTypes reg f pstyle
        = (unknownTypeMarker (typeNameOf f.fieldType),
           [unknownTypeNote (typeNameOf f.fieldType)])) := by
  refine ⟨?_, ?_, ?_⟩
  · intro rt hook hreg hhook
    unfold namedTypeTranslation
    rw [if_pos hout]
    simp only [hreg, hhook]
  · intro rt hreg hhook
    unfold namedTypeTranslation
    rw [if_pos hout]
    simp only [hreg, hhook]
  · intro hreg
    unfold namedTypeTranslation
    rw [if_pos hout]
    simp only [hreg]

/-- Witness for C6 (amended): a registered hook for `X` is spliced; with
no registry entry the unknown-type marker is emitted and a note
recorded. -/
theorem namedTypeTranslation_registry_behavior_witness :
    namedTypeTranslation []
        (fun fq => if fq = "X" then some ⟨"RX", some "hookCode();"⟩ else none)
        ⟨"x", "x", HType.namedOther "X", (1, 0)⟩ .styleStruct
      = ("hookCode();", []) ∧
    namedTypeTranslation [] (fun _ => none)
        ⟨"x", "x", HType.namedOther "X", (1, 0)⟩ .styleStruct
      = (unknownTypeMarker "X", [unknownTypeNote "X"]) := by
  constructor
  · exact (namedTypeTranslation_registry_behavior []
      (fun fq => if fq = "X" then some ⟨"RX", some "hookCode();"⟩ else none)
      ⟨"x", "x", HType.namedOther "X", (1, 0)⟩ .styleStruct (by decide)).1
      ⟨"RX", some "hookCode();"⟩ "hookCode();" (by rfl) rfl
  · exact (namedTypeTranslation_registry_behavior [] (fun _ => none)
      ⟨"x", "x", HType.namedOther "X", (1, 0)⟩ .styleStruct (by decide)).2.2 rfl

/-! ## Claim theorems for container fields -/

theorem evalElementLoop_eq_none_of_mem (elem : HType) (vs : List HValue)
    (v : HValue) (hv : v ∈ vs)
    (hg : evalScalarEnumStringCopy elem v = none) :
    evalElementLoop elem vs = none := by
  induction vs with
  | nil => cases hv
  | cons b rest ih =>
    rcases List.mem_cons.mp hv with rfl | hv'
    · simp [evalElementLoop, hg]
    · cases hb : evalScalarEnumStringCopy elem b
      · simp [evalElementLoop, hb]
      · simp [evalElementLoop, hb, ih hv']

/-- C7 counterexample: a field of type vec<vec<uint8>> is rejected with
the nested-container `#error` marker, but the notes component is `[]` —
no note is recorded in the diagnostics stream, contradicting the claim's
"records a note in the diagnostics stream". -/
theorem containerTranslation_no_note_counterexample :
    containerTranslation ⟨"g", "g",
        HType.vec (HType.vec (HType.scalar .kindUInt8)), (1, 0)⟩
      = some (.errorNestedContainer "g", []) := by
  rfl

/-- C7 (amended): for every array or vector field, only scalar, enum or
string element types get translation code — an index-bounded loop that
reapplies the per-element scalar range check, a failing element failing
the whole conversion; a nested-container or named (compound) element type
gets a rejection marker in place of translation code and NO diagnostics
note (the notes component is empty in every branch), and no
element-copying code. -/
theorem containerTranslation_supported_and_rejected
    (f : FieldWithVersion) (elem : HType)
    (hc : f.fieldType = .array elem ∨ f.fieldType = .vec elem) :
    ((elem.isArray || elem.isVector) = true →
      containerTranslation f = some (.errorNestedContainer f.fieldName, [])) ∧
    ((elem.isArray || elem.isVector) = false →
      (elem.isNamedType && !elem.isEnum) = true →
      containerTranslation f = some (.errorNamedElement f.fieldName, [])) ∧
    ((elem.isArray || elem.isVector) = false →
      (elem.isNamedType && !elem.isEnum) = false →
      containerTranslation f = some (.elementLoop elem, []) ∧
      ∀ (vs : List HValue) (x : Int), HValue.scalarV x ∈ vs →
        h2aScalarChecksFails elem x = true →
        evalElementLoop elem vs = none) := by
  have hct : containerTranslation f
      = some (containerEmitFor f.fieldName elem, []) := by
    rcases hc with h | h <;> simp only [containerTranslation, h]
  refine ⟨?_, ?_, ?_⟩
  · intro hnest
    rw [hct]
    unfold containerEmitFor
    rw [if_pos hnest]
  · intro hnest hnamed
    rw [hct]
    unfold containerEmitFor
    rw [if_neg (by simp [hnest]), if_pos hnamed]
  · intro hnest hnamed
    refine ⟨?_, ?_⟩
    · rw [hct]
      unfold containerEmitFor
      rw [if_neg (by simp [hnest]), if_neg (by simp [hnamed])]
    · intro vs x hx hguard
      exact evalElementLoop_eq_none_of_mem elem vs (HValue.scalarV x) hx
        (by simp [evalScalarEnumStringCopy, hguard])

/-- Witness for C7 (amended): a vec<uint8> field gets the element loop,
and an out-of-range element value 200 fails the whole conversion. -/
theorem containerTranslation_supported_and_rejected_witness :
    containerTranslation ⟨"g", "g", HType.vec (HType.scalar .kindUInt8),
        (1, 0)⟩
      = some (.elementLoop (HType.scalar .kindUInt8), []) ∧
    evalElementLoop (HType.scalar .kindUInt8) [.scalarV 200] = none := by
  have h := (containerTranslation_supported_and_rejected
    ⟨"g", "g", HType.vec (HType.scalar .kindUInt8), (1, 0)⟩
    (HType.scalar .kindUInt8) (Or.inr rfl)).2.2 (by rfl) (by rfl)
  exact ⟨h.1, h.2 [.scalarV 200] 200 (List.mem_singleton.mpr rfl) (by decide)⟩

/-! ## Claim theorems for the version-range resolver deduplication -/

theorem getNewerFQName_cases (a b : FQName) :
    getNewerFQName a b = a ∨ getNewerFQName a b = b := by
  unfold getNewerFQName
  split_ifs <;> simp

theorem getNewerFQName_minor (a b : FQName) (h : a.major = b.major) :
    (getNewerFQName a b).minor = max a.minor b.minor := by
  unfold getNewerFQName
  split_ifs <;> omega

theorem getLatestGo_key (cand : FQName) (found : Bool) (l : List FQName) :
    (getLatestGo cand found l).package = cand.package ∧
    (getLatestGo cand found l).name = cand.name ∧
    (getLatestGo cand found l).major = cand.major := by
  induction l generalizing cand found with
  | nil => exact ⟨rfl, rfl, rfl⟩
  | cons current rest ih =>
    unfold getLatestGo
    split
    · next hcond =>
      have hk : (if found then getNewerFQName current cand else current).package
            = cand.package ∧
          (if found then getNewerFQName current cand else current).name
            = cand.name ∧
          (if found then getNewerFQName current cand else current).major
            = cand.major := by
        split
        · rcases getNewerFQName_cases current cand with h | h <;> rw [h]
          · exact hcond
          · exact ⟨rfl, rfl, rfl⟩
        · exact hcond
      have hrec := ih (if found then getNewerFQName current cand else current)
        true
      exact ⟨hrec.1.trans hk.1, hrec.2.1.trans hk.2.1, hrec.2.2.trans hk.2.2⟩
    · exact ih cand found

theorem getLatestGo_minor_mono (cand : FQName) (l : List FQName) :
    cand.minor ≤ (getLatestGo cand true l).minor := by
  induction l generalizing cand with
  | nil => exact le_refl _
  | cons current rest ih =>
    unfold getLatestGo
    split
    · next hcond =>
      have h1 : cand.minor ≤ (getNewerFQName current cand).minor := by
        rw [getNewerFQName_minor current cand hcond.2.2]
        omega
      simp only [if_true]
      exact le_trans h1 (ih (getNewerFQName current cand))
    · exact ih cand

theorem getLatestGo_max (cand : FQName) (found : Bool) (l : List FQName)
    (u : FQName) (hu : u ∈ l)
    (hkey : u.package = cand.package ∧ u.name = cand.name ∧
      u.major = cand.major) :
    u.minor ≤ (getLatestGo cand found l).minor := by
  induction l generalizing cand found with
  | nil => cases hu
  | cons current rest ih =>
    unfold getLatestGo
    rcases List.mem_cons.mp hu with rfl | hu'
    · rw [if_pos hkey]
      have hle : u.minor ≤ (if found then getNewerFQName u cand else u).minor := by
        split
        · rw [getNewerFQName_minor u cand hkey.2.2]; omega
        · exact le_refl _
      exact le_trans hle (getLatestGo_minor_mono _ rest)
    · split
      · next hcond =>
        refine ih (if found then getNewerFQName current cand else current)
          true hu' ?_
        have hk : (if found then getNewerFQName current cand else current).package
              = cand.package ∧
            (if found then getNewerFQName current cand else current).name
              = cand.name ∧
            (if found then getNewerFQName current cand else current).major
              = cand.major := by
          split
          · rcases getNewerFQName_cases current cand with h | h <;> rw [h]
            · exact hcond
            · exact ⟨rfl, rfl, rfl⟩
          · exact hcond
        exact ⟨hkey.1.trans hk.1.symm, hkey.2.1.trans hk.2.1.symm,
          hkey.2.2.trans hk.2.2.symm⟩
      · exact ih cand found hu' hkey

theorem getLatestGo_seed_irrel (c1 c2 : FQName) (l : List FQName)
    (hkey : c1.package = c2.package ∧ c1.name = c2.name ∧
      c1.major = c2.major)
    (hex : ∃ x ∈ l, x.package = c1.package ∧ x.name = c1.name ∧
      x.major = c1.major) :
    getLatestGo c1 false l = getLatestGo c2 false l := by
  induction l with
  | nil =>
    rcases hex with ⟨x, hx, _⟩
    cases hx
  | cons current rest ih =>
    unfold getLatestGo
    by_cases hc : current.package = c1.package ∧ current.name = c1.name ∧
        current.major = c1.major
    · have h2 : current.package = c2.package ∧ current.name = c2.name ∧
          current.major = c2.major :=
        ⟨hc.1.trans hkey.1, hc.2.1.trans hkey.2.1, hc.2.2.trans hkey.2.2⟩
      rw [if_pos hc, if_pos h2]
      simp only [Bool.false_eq_true, if_false]
    · have h2 : ¬ (current.package = c2.package ∧ current.name = c2.name ∧
          current.major = c2.major) := fun hc2 =>
        hc ⟨hc2.1.trans hkey.1.symm, hc2.2.1.trans hkey.2.1.symm,
          hc2.2.2.trans hkey.2.2.symm⟩
      rw [if_neg hc, if_neg h2]
      apply ih
      rcases hex with ⟨x, hx, hxkey⟩
      rcases List.mem_cons.mp hx with rfl | hx'
      · exact absurd hxkey hc
      · exact ⟨x, hx', hxkey⟩

theorem dedupTargets_mem_char (targets : List FQName) (a : FQName)
    (ha : a ∈ dedupTargets targets) :
    a ∈ targets ∧ (a.name = "types" ∨
      getLatestMinorVersionFQNameFromList a targets = a) := by
  have h := List.mem_filter.mp ha
  refine ⟨h.1, ?_⟩
  have h2 := h.2
  simp only [Bool.or_eq_true, beq_iff_eq] at h2
  exact h2

/-- C8 counterexample: two `types` entries of the same package and major
version but different minor versions are BOTH retained by the
deduplication (`fq.name == "types"` entries are exempted at
`src/hidl2aidl/main.cpp` line 270), so two retained entries can share a
logical (package, local-name, major-version) key, contradicting the
claim's "no two retained entries share such a key (no exception)". -/
theorem dedupTargets_types_exception_counterexample :
    dedupTargets [⟨"p", "types", 1, 0⟩, ⟨"p", "types", 1, 1⟩]
      = [⟨"p", "types", 1, 0⟩, ⟨"p", "types", 1, 1⟩] ∧
    (⟨"p", "types", 1, 0⟩ : FQName) ≠ ⟨"p", "types", 1, 1⟩ := by
  constructor
  · rfl
  · decide

/-- C8 (amended): after collecting the per-version name lists, the
deduplication retains, per logical (package, local-name, major-version)
key, only the entry with the highest minor version among those collected
— EXCEPT entries named `types`, which are all retained regardless of
minor version; two retained non-`types` entries never share a key. -/
theorem dedupTargets_newest_wins (targets : List FQName) (a b : FQName)
    (ha : a ∈ dedupTargets targets) (hb : b ∈ dedupTargets targets)
    (hna : a.name ≠ "types")
    (hkey : a.package = b.package ∧ a.name = b.name ∧ a.major = b.major) :
    a = b ∧
    (∀ u ∈ targets, u.package = a.package → u.name = a.name →
      u.major = a.major → u.minor ≤ a.minor) := by
  obtain ⟨haT, haP⟩ := dedupTargets_mem_char targets a ha
  obtain ⟨hbT, hbP⟩ := dedupTargets_mem_char targets b hb
  have haL : getLatestMinorVersionFQNameFromList a targets = a := by
    rcases haP with h | h
    · exact absurd h hna
    · exact h
  have hbL : getLatestMinorVersionFQNameFromList b targets = b := by
    rcases hbP with h | h
    · exact absurd (hkey.2.1.trans h) hna
    · exact h
  constructor
  · calc a = getLatestGo a false targets := haL.symm
      _ = getLatestGo b false targets :=
        getLatestGo_seed_irrel a b targets hkey ⟨a, haT, rfl, rfl, rfl⟩
      _ = b := hbL
  · intro u hu h1 h2 h3
    have hmax := getLatestGo_max a false targets u hu ⟨h1, h2, h3⟩
    have : getLatestGo a false targets = a := haL
    rw [this] at hmax
    exact hmax

/-- Witness for C8 (amended): with collected entries `IFoo@1.0` and
`IFoo@1.1`, only `IFoo@1.1` is retained for the key and every collected
entry of the key has minor at most 1. -/
theorem dedupTargets_newest_wins_witness :
    ((⟨"p", "IFoo", 1, 1⟩ : FQName) = ⟨"p", "IFoo", 1, 1⟩) ∧
    (∀ u ∈ [(⟨"p", "IFoo", 1, 0⟩ : FQName), ⟨"p", "IFoo", 1, 1⟩],
      u.package = "p" → u.name = "IFoo" → u.major = 1 → u.minor ≤ 1) := by
  have h := dedupTargets_newest_wins
    [⟨"p", "IFoo", 1, 0⟩, ⟨"p", "IFoo", 1, 1⟩]
    ⟨"p", "IFoo", 1, 1⟩ ⟨"p", "IFoo", 1, 1⟩ (by decide) (by decide)
    (by decide) ⟨rfl, rfl, rfl⟩
  exact ⟨h.1, fun u hu h1 h2 h3 => h.2 u hu h1 h2 h3⟩

/-! ## Claim theorems for untagged unions -/

/-- C9 counterexample: for a concrete untagged union type, the definition
emitter's notes component is empty and every backend's translate emission
appends no note — no entry is written to the diagnostics stream for the
union, contradicting the claim's "writes an entry to the diagnostics
stream for it" (the annotation goes into the emitted files as comments
instead). -/
theorem union_no_diagnostics_counterexample :
    (emitCompoundTypeAidlDefinition .styleUnion "union U" (some (1, 0))
        (.cons "x" (.scalar .kindUInt8) .nil) [] []).notes = [] ∧
    (emitTranslateSourceForType .ndk
        (HType.compound .styleUnion "union U" (some (1, 0))
          (.cons "x" (.scalar .kindUInt8) .nil) [])
        (some ⟨[], [], []⟩)).2 = [] ∧
    (emitTranslateSourceForType .cpp
        (HType.compound .styleUnion "union U" (some (1, 0))
          (.cons "x" (.scalar .kindUInt8) .nil) [])
        (some ⟨[], [], []⟩)).2 = [] ∧
    (emitTranslateSourceForType .java
        (HType.compound .styleUnion "union U" (some (1, 0))
          (.cons "x" (.scalar .kindUInt8) .nil) [])
        (some ⟨[], [], []⟩)).2 = [] := by
  exact ⟨rfl, rfl, rfl, rfl⟩

/-- C9 (amended): every untagged union type gets only a placeholder
definition (an empty modern definition annotated with the cannot-convert
comment and a reproduction of the original legacy definition), no
translation function in any backend (the NDK/CPP backends emit only a
commented-out signature, the Java backend nothing), and NO entry is
written to the diagnostics stream for it — the definition emitter's notes
are exactly those of the field merge, and the translate emission appends
none. -/
theorem union_placeholder_no_translation (tn : String)
    (ver : Option (Nat × Nat)) (fs : HFields) (subs : List String)
    (subOrder : List String) (p : ProcessedCompoundType) :
    ((emitCompoundTypeAidlDefinition .styleUnion tn ver fs subs subOrder).body
      = .emptyPlaceholder
          "Cannot convert unions/safe_unions since AIDL does not support them."
          ("This is the HIDL definition of " ++ tn)) ∧
    ((emitCompoundTypeAidlDefinition .styleUnion tn ver fs subs subOrder).notes
      = (processCompoundType (HType.compound .styleUnion tn ver fs subs)
          emptyMergeState).notes) ∧
    (∀ backend : AidlBackend, ∀ style fields,
      (emitTranslateSourceForType backend
        (HType.compound .styleUnion tn ver fs subs) (some p)).1
        ≠ .translateFunction style fields) ∧
    (∀ backend : AidlBackend,
      (emitTranslateSourceForType backend
        (HType.compound .styleUnion tn ver fs subs) (some p)).2 = []) := by
  refine ⟨?_, ?_, ?_, ?_⟩
  · simp [emitCompoundTypeAidlDefinition]
  · simp [emitCompoundTypeAidlDefinition]
  · intro backend style fields
    cases backend <;> simp [emitTranslateSourceForType]
  · intro backend
    cases backend <;> rfl

/-! ## Claim theorem for determinism of merge and emission -/

/-- C10: running the resolver-fed merge twice on the same fixed input
yields identical `ProcessedCompoundType` structure, and the emitted
definition text is byte-identical across the two runs: the only
run-to-run varying input is the traversal order of the pointer-ordered
sub-type set, and the emitted text is invariant under any two such orders
because the import set re-sorts by string. -/
theorem resolver_merge_emit_deterministic (style : CompoundStyle)
    (tn : String) (ver : Option (Nat × Nat)) (fs : HFields)
    (subs : List String) (o1 o2 : List String)
    (h1 : o1.Perm (processCompoundType (HType.compound style tn ver fs subs)
      emptyMergeState).subTypes)
    (h2 : o2.Perm (processCompoundType (HType.compound style tn ver fs subs)
      emptyMergeState).subTypes) :
    (processCompoundType (HType.compound style tn ver fs subs) emptyMergeState
      = processCompoundType (HType.compound style tn ver fs subs)
          emptyMergeState) ∧
    (renderAidlDefinition
        (emitCompoundTypeAidlDefinition style tn ver fs subs o1)
      = renderAidlDefinition
          (emitCompoundTypeAidlDefinition style tn ver fs subs o2)) := by
  refine ⟨rfl, ?_⟩
  have hperm : o1.Perm o2 := h1.trans h2.symm
  have hd : emitCompoundTypeAidlDefinition style tn ver fs subs o1
      = emitCompoundTypeAidlDefinition style tn ver fs subs o2 := by
    simp only [emitCompoundTypeAidlDefinition]
    congr 1
    rw [List.toFinset_eq_of_perm _ _
      (List.Perm.append_left _ (hperm.filterMap _))]
  rw [hd]

/-- Witness for C10: a concrete struct with one sub-type, the traversal
order being the set contents in both runs. -/
theorem resolver_merge_emit_deterministic_witness :
    (processCompoundType
        (HType.compound .styleStruct "struct Foo" (some (1, 0))
          (.cons "a" (.scalar .kindUInt32) .nil) ["Inner"]) emptyMergeState
      = processCompoundType
        (HType.compound .styleStruct "struct Foo" (some (1, 0))
          (.cons "a" (.scalar .kindUInt32) .nil) ["Inner"]) emptyMergeState) ∧
    (renderAidlDefinition (emitCompoundTypeAidlDefinition .styleStruct
        "struct Foo" (some (1, 0)) (.cons "a" (.scalar .kindUInt32) .nil)
        ["Inner"] ["Inner"])
      = renderAidlDefinition (emitCompoundTypeAidlDefinition .styleStruct
        "struct Foo" (some (1, 0)) (.cons "a" (.scalar .kindUInt32) .nil)
        ["Inner"] ["Inner"])) := by
  exact resolver_merge_emit_deterministic .styleStruct "struct Foo"
    (some (1, 0)) (.cons "a" (.scalar .kindUInt32) .nil) ["Inner"]
    ["Inner"] ["Inner"] (List.Perm.refl _) (List.Perm.refl _)

end Hidl2Aidl
